import Mathlib

/-
Verification of the pixel-grid mutation engine of
`src/src/components/PixelCanvas/PixelCanvas.tsx`: coordinate mapping, brush
stamping with corner trim, the snapshot undo history, and the ghost preview.
Pure fragments are embedded as Lean functions; the React component state and
its event handlers are embedded as an explicit state type with a step function
per input event.
-/

/-- Colors are the CSS color strings the source stores in the pixel grid (the
`hsvToCss` output or the sentinel "transparent"); the conversion itself is an
external collaborator, so a color is an opaque string here. -/
abbrev Color := String

/-- A grid is the 2D array `pixels` of `PixelCanvas.tsx`: a list of rows, each
a list of cell colors. -/
abbrev Grid := List (List Color)

/-- The read-only configuration inputs of `PixelCanvas` (lines 12-14 and 24 of
the source): resolution, pen size, grab flag, selected tool and color. -/
structure Config where
  logicWidth : Nat
  logicHeight : Nat
  penSize : Nat
  isGrab : Bool
  selectedTool : String
  selectedColor : Color

/-- One row copy, `[...row]` in the source: rebuilds the row cons by cons. -/
def copyRow (row : List Color) : List Color :=
  row.foldr (fun a acc => a :: acc) []

/-- The deep copy `pixels.map((row) => [...row])` used at init (line 39),
commit (line 152) and undo-restore (line 183). -/
def copyGrid (g : Grid) : Grid :=
  g.map copyRow

/-- The initial pixel grid (lines 29-33): `logicHeight` rows of `logicWidth`
"transparent" cells. -/
def initialPixels (cfg : Config) : Grid :=
  List.replicate cfg.logicHeight (List.replicate cfg.logicWidth "transparent")

/-- Modelled from the spec: the helper `isEdge(penSize, dy, dx)` imported from
`../../util/helpers/isEdge` (line 9) is code of this repository that is not
present under `src/`; only its call sites (lines 75 and 115) are. Following
the spec's corner membership test (section 4.2): an offset is a trimmed corner
exactly when it lies in the outermost ring of the penSize × penSize square and
at the extremities of both axes simultaneously, i.e. within the corner 2×2
blocks (over Nat, `m - 1 ≤ dy` is written `m ≤ dy + 1`). -/
def isEdge (penSize dy dx : Nat) : Bool :=
  let m := penSize - 1
  decide ((dy = 0 ∨ dy = m ∨ dx = 0 ∨ dx = m)
    ∧ (dy ≤ 1 ∨ m ≤ dy + 1) ∧ (dx ≤ 1 ∨ m ≤ dx + 1))

/-- The write `newPixels[r][c] = color` (line 121): replace cell (i, j). A
write outside the list bounds is a no-op (`List.set` ignores out-of-range
indices); the source only performs it after its own bounds check. -/
def setCell (g : Grid) (i j : Nat) (v : Color) : Grid :=
  g.set i ((g.getD i []).set j v)

/-- Read cell (i, j) of a grid, `pixels[row][col]`. -/
def getCellColor (g : Grid) (i j : Nat) : Option Color :=
  g[i]?.bind fun row => row[j]?

/-- The bounds check of lines 80 and 120:
`r >= 0 && r < logicHeight && c >= 0 && c < logicWidth`. -/
def inBounds (cfg : Config) (r c : ℤ) : Bool :=
  decide (0 ≤ r) && decide (r < (cfg.logicHeight : ℤ))
    && decide (0 ≤ c) && decide (c < (cfg.logicWidth : ℤ))

/-- The stamp color of lines 121-124: "transparent" for the eraser, otherwise
the selected color (the HSV to CSS conversion is external and collapsed into
`selectedColor`). -/
def stampColor (cfg : Config) : Color :=
  if cfg.selectedTool == "eraser" then "transparent" else cfg.selectedColor

/-- `drawPixel` (lines 107-131): when not in grab mode, stamp the penSize ×
penSize square anchored at (row, col) onto a copy of the grid, skipping
trimmed corners when penSize > 2 and silently skipping out-of-bounds cells. -/
def drawPixel (cfg : Config) (row col : ℤ) (g : Grid) : Grid :=
  if cfg.isGrab then g
  else
    (List.range cfg.penSize).foldl (fun acc dy =>
      (List.range cfg.penSize).foldl (fun acc2 dx =>
        if decide (2 < cfg.penSize) && isEdge cfg.penSize dy dx then acc2
        else if inBounds cfg (row + (dy : ℤ)) (col + (dx : ℤ)) then
          setCell acc2 (row + (dy : ℤ)).toNat (col + (dx : ℤ)).toNat (stampColor cfg)
        else acc2) acc) g

/-- The stamp footprint: the cells the loop of lines 113-127 attempts to paint
(before the bounds check), i.e. the offsets (dy, dx) of [0, penSize)² that
survive the corner trim, translated to the anchor (row, col). -/
def footprint (penSize : Nat) (row col : ℤ) : List (ℤ × ℤ) :=
  (List.range penSize).foldl (fun acc dy =>
    (List.range penSize).foldl (fun acc2 dx =>
      if decide (2 < penSize) && isEdge penSize dy dx then acc2
      else acc2 ++ [(row + (dy : ℤ), col + (dx : ℤ))]) acc) []

/-- All offsets (dy, dx) of the penSize × penSize square, row-major as the
nested loops of the source visit them. -/
def allOffsets (penSize : Nat) : List (Nat × Nat) :=
  (List.range penSize).flatMap fun dy => (List.range penSize).map fun dx => (dy, dx)

/-- The offsets the stamp keeps: the square minus the trimmed corners. -/
def keepOffsets (penSize : Nat) : List (Nat × Nat) :=
  (allOffsets penSize).filter fun p => !(decide (2 < penSize) && isEdge penSize p.1 p.2)

/-- Stated from the claim's words, to compare with the code-derived footprint:
offset (dy, dx) lies in one of the four corner 2×2 blocks of the square, i.e.
in the outermost ring and at the extremities of both axes. -/
def specCornerBlock (n dy dx : Nat) : Prop :=
  (dy = 0 ∨ dy = n - 1 ∨ dx = 0 ∨ dx = n - 1)
    ∧ (dy ≤ 1 ∨ n - 2 ≤ dy) ∧ (dx ≤ 1 ∨ n - 2 ≤ dx)

instance specCornerBlockDecidable (n dy dx : Nat) : Decidable (specCornerBlock n dy dx) :=
  inferInstanceAs (Decidable (_ ∧ _ ∧ _))

/-- `getCell` (lines 97-105) over exact rational arithmetic: map a pointer
position to a grid cell given the canvas origin, zoom and cell pixel size. -/
def getCell (zoom pixelSize clientX clientY rectLeft rectTop : ℚ) : ℤ × ℤ :=
  let x := (clientX - rectLeft) / zoom
  let y := (clientY - rectTop) / zoom
  let col := Int.floor (x / pixelSize)
  let row := Int.floor (y / pixelSize)
  (row, col)

/-- The component state of `PixelCanvas`: the pixel grid (line 29), the
snapshot history and its step cursor (lines 35-36), the drawing flag (line 15)
and the hover position (line 16). -/
structure EditorState where
  pixels : Grid
  history : List Grid
  historyStep : Nat
  isDrawing : Bool
  hoverPos : Option (ℤ × ℤ)

/-- The pointer and key events the component handles (lines 134-179);
pointer-down and pointer-move carry the cell already mapped by `getCell`. -/
inductive Event where
  | mouseDown (row col : ℤ)
  | mouseMove (row col : ℤ)
  | mouseUp
  | mouseLeave
  | undoKey

/-- One event-handler step of the component. `mouseUp` (lines 149-160)
truncates the history to the cursor, appends a deep copy of the grid and
advances the cursor, with no check of the drawing flag. `undoKey` models the
`Math.max(0, prev - 1)` cursor update (line 172) followed by the restore
effect of lines 181-185; React re-runs that effect only when `historyStep`
actually changed, so a cursor already at 0 leaves the whole state unchanged,
and the effect re-checks that `history[historyStep]` exists. -/
def stepEvent (cfg : Config) (s : EditorState) : Event → EditorState
  | Event.mouseDown r c =>
      { s with pixels := drawPixel cfg r c s.pixels, isDrawing := true }
  | Event.mouseMove r c =>
      if s.isDrawing then
        { s with hoverPos := some (r, c), pixels := drawPixel cfg r c s.pixels }
      else { s with hoverPos := some (r, c) }
  | Event.mouseUp =>
      { s with isDrawing := false,
               history := s.history.take (s.historyStep + 1) ++ [copyGrid s.pixels],
               historyStep := s.historyStep + 1 }
  | Event.mouseLeave => { s with hoverPos := none }
  | Event.undoKey =>
      if s.historyStep = 0 then s
      else
        { s with historyStep := s.historyStep - 1,
                 pixels := match s.history[s.historyStep - 1]? with
                           | some g => copyGrid g
                           | none => s.pixels }

/-- The initial component state (lines 29-42): transparent grid, history
seeded with one deep copy, cursor 0, not drawing, no hover. -/
def initState (cfg : Config) : EditorState :=
  { pixels := initialPixels cfg
    history := [copyGrid (initialPixels cfg)]
    historyStep := 0
    isDrawing := false
    hoverPos := none }

/-- Run a sequence of input events. -/
def applyEvents (cfg : Config) (s : EditorState) (evs : List Event) : EditorState :=
  evs.foldl (stepEvent cfg) s

/-- A completed stroke: pointer-down at (r0, c0), the given pointer-moves,
then pointer-up. -/
def strokeEvents (r0 c0 : ℤ) (moves : List (ℤ × ℤ)) : List Event :=
  Event.mouseDown r0 c0 :: ((moves.map fun p => Event.mouseMove p.1 p.2) ++ [Event.mouseUp])

/-- k undo keystrokes. -/
def undoN (cfg : Config) (s : EditorState) (k : Nat) : EditorState :=
  applyEvents cfg s (List.replicate k Event.undoKey)

/-- k undos followed by a completed stroke. -/
def afterStroke (cfg : Config) (s : EditorState) (k : Nat) (r0 c0 : ℤ)
    (moves : List (ℤ × ℤ)) : EditorState :=
  applyEvents cfg (undoN cfg s k) (strokeEvents r0 c0 moves)

/-- The settle-point invariant: the grid store equals the history entry at the
cursor. -/
def settled (s : EditorState) : Prop :=
  s.history[s.historyStep]? = some s.pixels

instance settledDecidable (s : EditorState) : Decidable (settled s) :=
  inferInstanceAs (Decidable (s.history[s.historyStep]? = some s.pixels))

/-- `drawGhostBrush` (lines 65-86): the cells of the ghost overlay the layout
effect fills. It issues fill-rect commands only; it calls no state setter.
The overlay is empty when there is no hover position, while a stroke is being
drawn, or in grab mode (`hoverPos && !isDrawing && !isGrab`). -/
def drawGhostBrush (cfg : Config) (s : EditorState) : List (ℤ × ℤ) :=
  match s.hoverPos with
  | none => []
  | some (row, col) =>
      if s.isDrawing || cfg.isGrab then []
      else
        (List.range cfg.penSize).foldl (fun acc dy =>
          (List.range cfg.penSize).foldl (fun acc2 dx =>
            if decide (2 < cfg.penSize) && isEdge cfg.penSize dy dx then acc2
            else if inBounds cfg (row + (dy : ℤ)) (col + (dx : ℤ)) then
              acc2 ++ [(row + (dy : ℤ), col + (dx : ℤ))]
            else acc2) acc) []

/-- The ghost render pass (lines 92-94): it returns the untouched state
together with the overlay; the layout effect performs no state update. -/
def renderGhost (cfg : Config) (s : EditorState) : EditorState × List (ℤ × ℤ) :=
  (s, drawGhostBrush cfg s)

/-- A 1×2 grid with pen size 1 and the paint tool, for concrete checks. -/
def cexCfg : Config :=
  { logicWidth := 2, logicHeight := 1, penSize := 1,
    isGrab := false, selectedTool := "pen", selectedColor := "red" }

/-- The 5×5 grid of the spec's out-of-bounds scenario, with pen size 2. -/
def cfgFive : Config :=
  { logicWidth := 5, logicHeight := 5, penSize := 2,
    isGrab := false, selectedTool := "pen", selectedColor := "red" }

/-- A 5×5 grid with pen size 1. -/
def cfgPen1 : Config :=
  { logicWidth := 5, logicHeight := 5, penSize := 1,
    isGrab := false, selectedTool := "pen", selectedColor := "red" }

/-- A copied row is value-equal to the original. -/
theorem copyRow_eq (row : List Color) : copyRow row = row := by
  induction row with
  | nil => rfl
  | cons a t ih =>
      show a :: copyRow t = a :: t
      rw [ih]

/-- A deep-copied grid is value-equal to the original: the copy discipline of
the source is invisible at the level of values, only sharing differs. -/
theorem copyGrid_eq (g : Grid) : copyGrid g = g := by
  induction g with
  | nil => rfl
  | cons r t ih =>
      show copyRow r :: copyGrid t = r :: t
      rw [copyRow_eq, ih]

/-- Folding over a flattened list is the nested fold. -/
theorem foldlFlatMap {α β γ : Type} (f : α → List β) (g : γ → β → γ) :
    ∀ (l : List α) (a : γ),
      (l.flatMap f).foldl g a = l.foldl (fun acc x => (f x).foldl g acc) a := by
  intro l
  induction l with
  | nil => intro a; rfl
  | cons x xs ih =>
      intro a
      rw [List.flatMap_cons, List.foldl_append, List.foldl_cons]
      exact ih _

/-- A fold whose body skips elements satisfying q is a fold over the filtered
list. -/
theorem foldlSkip {β γ : Type} (q : β → Bool) (h : γ → β → γ) :
    ∀ (l : List β) (a : γ),
      l.foldl (fun b x => if q x then b else h b x) a
        = (l.filter fun x => !q x).foldl h a := by
  intro l
  induction l with
  | nil => intro a; rfl
  | cons x xs ih =>
      intro a
      rw [List.foldl_cons, List.filter_cons]
      cases hq : q x
      · simp only [hq, Bool.not_false, if_true, if_false, List.foldl_cons]
        exact ih _
      · simp only [hq, Bool.not_true, if_true, if_false]
        exact ih _

/-- A fold that appends one image per element builds the mapped list. -/
theorem foldlSnocMap {β π : Type} (f : β → π) :
    ∀ (l : List β) (a : List π),
      l.foldl (fun acc x => acc ++ [f x]) a = a ++ l.map f := by
  intro l
  induction l with
  | nil => intro a; simp
  | cons x xs ih =>
      intro a
      rw [List.foldl_cons, ih, List.map_cons]
      simp

/-- The footprint loop of the source builds exactly the kept offsets,
translated to the anchor. -/
theorem footprint_eq (n : Nat) (row col : ℤ) :
    footprint n row col
      = (keepOffsets n).map fun p => (row + (p.1 : ℤ), col + (p.2 : ℤ)) := by
  have h1 : footprint n row col
      = (allOffsets n).foldl
          (fun acc2 p =>
            if decide (2 < n) && isEdge n p.1 p.2 then acc2
            else acc2 ++ [(row + (p.1 : ℤ), col + (p.2 : ℤ))]) [] := by
    unfold footprint allOffsets
    rw [foldlFlatMap]
    simp only [List.foldl_map]
  rw [h1, foldlSkip, foldlSnocMap]
  rfl

/-- Membership of a translated offset in the footprint is membership of the
offset among the kept offsets. -/
theorem mem_footprint_iff (n : Nat) (row col : ℤ) (dy dx : Nat) :
    ((row + (dy : ℤ), col + (dx : ℤ)) ∈ footprint n row col)
      ↔ (dy, dx) ∈ keepOffsets n := by
  rw [footprint_eq, List.mem_map]
  constructor
  · rintro ⟨p, hp, he⟩
    obtain ⟨p1, p2⟩ := p
    have h1 : row + (p1 : ℤ) = row + (dy : ℤ) := congrArg Prod.fst he
    have h2 : col + (p2 : ℤ) = col + (dx : ℤ) := congrArg Prod.snd he
    have e1 : p1 = dy := by omega
    have e2 : p2 = dx := by omega
    rw [e1, e2] at hp
    exact hp
  · intro hp
    exact ⟨(dy, dx), hp, rfl⟩

/-- The footprint's size does not depend on the anchor. -/
theorem footprint_length (n : Nat) (row col : ℤ) :
    (footprint n row col).length = (keepOffsets n).length := by
  rw [footprint_eq, List.length_map]

/-- `drawPixel` as a single fold over the kept offsets. -/
theorem drawPixel_eq (cfg : Config) (row col : ℤ) (g : Grid) :
    drawPixel cfg row col g
      = if cfg.isGrab then g
        else (keepOffsets cfg.penSize).foldl
          (fun b p =>
            if inBounds cfg (row + (p.1 : ℤ)) (col + (p.2 : ℤ)) then
              setCell b (row + (p.1 : ℤ)).toNat (col + (p.2 : ℤ)).toNat (stampColor cfg)
            else b) g := by
  cases hg : cfg.isGrab
  · have h1 : drawPixel cfg row col g
        = (allOffsets cfg.penSize).foldl
            (fun b p =>
              if decide (2 < cfg.penSize) && isEdge cfg.penSize p.1 p.2 then b
              else if inBounds cfg (row + (p.1 : ℤ)) (col + (p.2 : ℤ)) then
                setCell b (row + (p.1 : ℤ)).toNat (col + (p.2 : ℤ)).toNat (stampColor cfg)
              else b) g := by
      unfold drawPixel allOffsets
      rw [hg]
      simp only [Bool.false_eq_true, if_false]
      rw [foldlFlatMap]
      simp only [List.foldl_map]
    rw [h1, foldlSkip]
    simp only [hg, Bool.false_eq_true, if_false]
    rfl
  · unfold drawPixel
    simp only [hg, if_true]

/-- Writing one cell leaves every other cell unchanged. -/
theorem getCellColor_setCell_ne (g : Grid) (x y i j : Nat) (v : Color)
    (h : x ≠ i ∨ y ≠ j) :
    getCellColor (setCell g x y v) i j = getCellColor g i j := by
  unfold getCellColor setCell
  rcases h with h | h
  · rw [List.getElem?_set_ne h]
  · by_cases hx : x = i
    · subst hx
      by_cases hlen : x < g.length
      · rw [List.getElem?_set_self hlen]
        obtain ⟨r, hr⟩ : ∃ r, g[x]? = some r := by
          have := List.getElem?_eq_getElem hlen
          exact ⟨g[x], this⟩
        have hgetD : g.getD x [] = r := by
          rw [List.getD_eq_getElem?_getD, hr]
          rfl
        rw [hr, hgetD]
        show ((r.set y v)[j]?) = r[j]?
        rw [List.getElem?_set_ne h]
      · rw [List.set_eq_of_length_le (Nat.le_of_not_lt hlen)]
    · rw [List.getElem?_set_ne hx]

/-- A sequence of bounds-guarded stamp writes leaves a cell untouched when no
write lands on it. -/
theorem foldWrites_untouched (cfg : Config) (row col : ℤ) (v : Color) (i j : Nat) :
    ∀ (L : List (Nat × Nat)) (g : Grid),
      (∀ p ∈ L, ¬(row + (p.1 : ℤ) = (i : ℤ) ∧ col + (p.2 : ℤ) = (j : ℤ))) →
      getCellColor
        (L.foldl (fun b p =>
          if inBounds cfg (row + (p.1 : ℤ)) (col + (p.2 : ℤ)) then
            setCell b (row + (p.1 : ℤ)).toNat (col + (p.2 : ℤ)).toNat v
          else b) g) i j = getCellColor g i j := by
  intro L
  induction L with
  | nil => intro g _; rfl
  | cons p ps ih =>
      intro g hL
      rw [List.foldl_cons, ih _ (fun q hq => hL q (List.mem_cons_of_mem p hq))]
      by_cases hb : inBounds cfg (row + (p.1 : ℤ)) (col + (p.2 : ℤ)) = true
      · rw [if_pos hb]
        apply getCellColor_setCell_ne
        have hp := hL p (List.mem_cons_self p ps)
        unfold inBounds at hb
        simp only [Bool.and_eq_true, decide_eq_true_eq] at hb
        obtain ⟨⟨⟨hb1, hb2⟩, hb3⟩, hb4⟩ := hb
        by_contra hcon
        push_neg at hcon
        obtain ⟨h1, h2⟩ := hcon
        exact hp ⟨by omega, by omega⟩
      · rw [if_neg hb]

/-- C1: for pen sizes 3, 4 and 5 and every anchor cell, the stamp footprint
excludes exactly the offsets of the four corner 2×2 blocks of the penSize ×
penSize square — the cells of the outermost ring at the extremities of both
axes (`specCornerBlock`, stated from the claim's words) — its size is strictly
below penSize², and the excluded set is symmetric across all four corners
(invariant under reflecting either axis). -/
theorem c1_corner_trim (n : Nat) (hn : n = 3 ∨ n = 4 ∨ n = 5) (row col : ℤ)
    (dy dx : Nat) (hdy : dy < n) (hdx : dx < n) :
    (((row + (dy : ℤ), col + (dx : ℤ)) ∈ footprint n row col)
        ↔ ¬ specCornerBlock n dy dx)
    ∧ (footprint n row col).length < n * n
    ∧ (specCornerBlock n dy dx ↔ specCornerBlock n (n - 1 - dy) dx)
    ∧ (specCornerBlock n dy dx ↔ specCornerBlock n dy (n - 1 - dx)) := by
  refine ⟨?_, ?_, ?_, ?_⟩
  · rw [mem_footprint_iff]
    rcases hn with rfl | rfl | rfl <;>
      (interval_cases dy <;> interval_cases dx <;> decide)
  · rw [footprint_length]
    rcases hn with rfl | rfl | rfl <;> decide
  · rcases hn with rfl | rfl | rfl <;>
      (interval_cases dy <;> interval_cases dx <;> decide)
  · rcases hn with rfl | rfl | rfl <;>
      (interval_cases dy <;> interval_cases dx <;> decide)

/-- C1 witness: the pen size 3 stamp at anchor (5, 5), offset (1, 1). -/
theorem c1_corner_trim_witness :
    ((((5 : ℤ) + ((1 : Nat) : ℤ), (5 : ℤ) + ((1 : Nat) : ℤ)) ∈ footprint 3 5 5)
        ↔ ¬ specCornerBlock 3 1 1)
    ∧ (footprint 3 5 5).length < 3 * 3
    ∧ (specCornerBlock 3 1 1 ↔ specCornerBlock 3 (3 - 1 - 1) 1)
    ∧ (specCornerBlock 3 1 1 ↔ specCornerBlock 3 1 (3 - 1 - 1)) :=
  c1_corner_trim 3 (Or.inl rfl) 5 5 1 1 (by decide) (by decide)

/-- C10: with pen size 1 the footprint is exactly the anchor cell; the corner
trim never applies because the `penSize > 2` guard short-circuits. -/
theorem c10_pen1_footprint (row col : ℤ) :
    footprint 1 row col = [(row, col)] := by
  rw [footprint_eq]
  have h : keepOffsets 1 = [(0, 0)] := by decide
  rw [h]
  simp

/-- C6 counterexample: on the claim's own 5×5 grid, a stamp whose pointer maps
to the out-of-bounds cell (-1, -1) does mutate the in-bounds cell (0, 0) as
soon as the pen size is 2, because the footprint extends in the positive
direction back onto the grid; so "leaves every in-bounds cell unchanged ...
for every pen size" is false. -/
theorem c6_oob_counterexample :
    getCellColor (drawPixel cfgFive (-1) (-1) (initialPixels cfgFive)) 0 0
      ≠ getCellColor (initialPixels cfgFive) 0 0 := by decide

/-- C6 amended: a stamp at an out-of-bounds anchor never fails (the embedding
is a total function mirroring the guarded writes), every footprint cell
outside [0, logicHeight) × [0, logicWidth) is silently skipped, and every cell
outside the stamp's footprint is unchanged; with pen size 1 an out-of-bounds
anchor leaves the whole grid unchanged. -/
theorem c6_oob_stamp_amended (cfg : Config) (row col : ℤ) (g : Grid) (i j : Nat)
    (hout : (((i : Nat) : ℤ), ((j : Nat) : ℤ)) ∉ footprint cfg.penSize row col) :
    getCellColor (drawPixel cfg row col g) i j = getCellColor g i j
    ∧ (cfg.penSize = 1 →
        (row < 0 ∨ (cfg.logicHeight : ℤ) ≤ row ∨ col < 0 ∨ (cfg.logicWidth : ℤ) ≤ col) →
        drawPixel cfg row col g = g) := by
  constructor
  · rw [drawPixel_eq]
    by_cases hg : cfg.isGrab = true
    · rw [if_pos hg]
    · rw [if_neg hg]
      apply foldWrites_untouched
      intro p hp hcon
      apply hout
      rw [footprint_eq, List.mem_map]
      refine ⟨p, hp, ?_⟩
      rw [hcon.1, hcon.2]
  · intro h1 hoob
    rw [drawPixel_eq, h1]
    by_cases hg : cfg.isGrab = true
    · rw [if_pos hg]
    · rw [if_neg hg]
      have hk : keepOffsets 1 = [(0, 0)] := by decide
      rw [hk, List.foldl_cons]
      have hb : inBounds cfg (row + ((0 : Nat) : ℤ)) (col + ((0 : Nat) : ℤ)) = false := by
        unfold inBounds
        simp only [Bool.and_eq_false_iff, decide_eq_false_iff_not, not_le, not_lt,
          Nat.cast_zero, add_zero]
        omega
      rw [hb]
      rfl

/-- C6 witness: with pen size 1 on a 5×5 grid, a stamp at the out-of-bounds
anchor (-1, -1) changes nothing. -/
theorem c6_oob_stamp_amended_witness :
    drawPixel cfgPen1 (-1) (-1) (initialPixels cfgPen1) = initialPixels cfgPen1 :=
  (c6_oob_stamp_amended cfgPen1 (-1) (-1) (initialPixels cfgPen1) 0 0 (by decide)).2
    rfl (by decide)

/-- A settled state's cursor is inside the history. -/
theorem settled_lt (s : EditorState) (h : settled s) :
    s.historyStep < s.history.length := by
  by_contra hc
  rw [settled, List.getElem?_eq_none_iff.mpr (Nat.le_of_not_lt hc)] at h
  exact Option.noConfusion h

/-- Pointer-down changes neither the history nor the cursor. -/
theorem down_pres (cfg : Config) (s : EditorState) (r c : ℤ) :
    (stepEvent cfg s (Event.mouseDown r c)).history = s.history
    ∧ (stepEvent cfg s (Event.mouseDown r c)).historyStep = s.historyStep :=
  ⟨rfl, rfl⟩

/-- Pointer-move changes neither the history nor the cursor. -/
theorem move_pres (cfg : Config) (s : EditorState) (r c : ℤ) :
    (stepEvent cfg s (Event.mouseMove r c)).history = s.history
    ∧ (stepEvent cfg s (Event.mouseMove r c)).historyStep = s.historyStep := by
  by_cases hd : s.isDrawing <;> simp [stepEvent, hd]

/-- Undo leaves the history untouched. -/
theorem undo_history (cfg : Config) (s : EditorState) :
    (stepEvent cfg s Event.undoKey).history = s.history := by
  by_cases h : s.historyStep = 0 <;> simp [stepEvent, h]

/-- Undo moves the cursor to max(0, cursor - 1), which over Nat is cursor-1. -/
theorem undo_historyStep (cfg : Config) (s : EditorState) :
    (stepEvent cfg s Event.undoKey).historyStep = s.historyStep - 1 := by
  by_cases h : s.historyStep = 0 <;> simp [stepEvent, h]

/-- Undo from a positive in-range cursor restores the history entry at the new
cursor, so the state settles. -/
theorem undo_settled_of_pos (cfg : Config) (s : EditorState)
    (h0 : 0 < s.historyStep) (hlt : s.historyStep < s.history.length) :
    settled (stepEvent cfg s Event.undoKey) := by
  have hne : s.historyStep ≠ 0 := Nat.pos_iff_ne_zero.mp h0
  have hlt2 : s.historyStep - 1 < s.history.length := by omega
  obtain ⟨g, hg⟩ : ∃ g, s.history[s.historyStep - 1]? = some g :=
    ⟨s.history[s.historyStep - 1], List.getElem?_eq_getElem hlt2⟩
  simp [settled, stepEvent, hne, hg, copyGrid_eq]

/-- Undo preserves settledness. -/
theorem undo_settled_of_settled (cfg : Config) (s : EditorState) (h : settled s) :
    settled (stepEvent cfg s Event.undoKey) := by
  by_cases h0 : s.historyStep = 0
  · simpa [stepEvent, h0] using h
  · exact undo_settled_of_pos cfg s (Nat.pos_of_ne_zero h0) (settled_lt s h)

/-- After pointer-up from any state with an in-range cursor, the grid store
equals the newly appended history entry. -/
theorem mouseUp_settled (cfg : Config) (s : EditorState)
    (hlt : s.historyStep < s.history.length) :
    settled (stepEvent cfg s Event.mouseUp) := by
  have hlen : (s.history.take (s.historyStep + 1)).length = s.historyStep + 1 := by
    rw [List.length_take]
    omega
  show (s.history.take (s.historyStep + 1) ++ [copyGrid s.pixels])[s.historyStep + 1]?
      = some s.pixels
  rw [List.getElem?_append_right hlen.le, hlen]
  simp [copyGrid_eq]

/-- Every event keeps the cursor strictly inside the history. -/
theorem stepInv (cfg : Config) (s : EditorState) (e : Event)
    (h : s.historyStep < s.history.length) :
    (stepEvent cfg s e).historyStep < (stepEvent cfg s e).history.length := by
  cases e with
  | mouseDown r c => simpa [stepEvent] using h
  | mouseMove r c => by_cases hd : s.isDrawing <;> simpa [stepEvent, hd] using h
  | mouseUp =>
      simp only [stepEvent, List.length_append, List.length_take, List.length_cons,
        List.length_nil]
      omega
  | mouseLeave => simpa [stepEvent] using h
  | undoKey =>
      rw [undo_historyStep, undo_history]
      omega

/-- The cursor invariant holds along any event sequence. -/
theorem applyEvents_inv (cfg : Config) :
    ∀ (evs : List Event) (s : EditorState), s.historyStep < s.history.length →
      (applyEvents cfg s evs).historyStep < (applyEvents cfg s evs).history.length := by
  intro evs
  induction evs with
  | nil => intro s h; exact h
  | cons e t ih =>
      intro s h
      exact ih (stepEvent cfg s e) (stepInv cfg s e h)

/-- The initial state is settled. -/
theorem settled_init (cfg : Config) : settled (initState cfg) := by
  simp [settled, initState, copyGrid_eq]

/-- A list of pointer-moves changes neither the history nor the cursor. -/
theorem moves_pres (cfg : Config) :
    ∀ (moves : List (ℤ × ℤ)) (s : EditorState),
      (applyEvents cfg s (moves.map fun p => Event.mouseMove p.1 p.2)).history = s.history
      ∧ (applyEvents cfg s (moves.map fun p => Event.mouseMove p.1 p.2)).historyStep
          = s.historyStep := by
  intro moves
  induction moves with
  | nil => intro s; exact ⟨rfl, rfl⟩
  | cons m t ih =>
      intro s
      have h := ih (stepEvent cfg s (Event.mouseMove m.1 m.2))
      have hm := move_pres cfg s m.1 m.2
      exact ⟨h.1.trans hm.1, h.2.trans hm.2⟩

/-- Running a stroke is: pointer-down, the moves, then pointer-up. -/
theorem applyEvents_stroke (cfg : Config) (s : EditorState) (r0 c0 : ℤ)
    (moves : List (ℤ × ℤ)) :
    applyEvents cfg s (strokeEvents r0 c0 moves)
      = stepEvent cfg
          (applyEvents cfg (stepEvent cfg s (Event.mouseDown r0 c0))
            (moves.map fun p => Event.mouseMove p.1 p.2)) Event.mouseUp := by
  unfold strokeEvents applyEvents
  rw [List.foldl_cons, List.foldl_append, List.foldl_cons, List.foldl_nil]

/-- The commit at the end of a stroke: old history truncated at the cursor,
one deep-copied snapshot appended, cursor advanced. -/
theorem stroke_history (cfg : Config) (s : EditorState) (r0 c0 : ℤ)
    (moves : List (ℤ × ℤ)) :
    (applyEvents cfg s (strokeEvents r0 c0 moves)).history
        = s.history.take (s.historyStep + 1)
          ++ [copyGrid (applyEvents cfg s (strokeEvents r0 c0 moves)).pixels]
    ∧ (applyEvents cfg s (strokeEvents r0 c0 moves)).historyStep = s.historyStep + 1 := by
  rw [applyEvents_stroke]
  have hmv := moves_pres cfg moves (stepEvent cfg s (Event.mouseDown r0 c0))
  have hdn := down_pres cfg s r0 c0
  constructor
  · show _ ++ _ = _
    rw [hmv.1, hmv.2, hdn.1, hdn.2]
    rfl
  · show _ + 1 = _ + 1
    rw [hmv.2, hdn.2]

/-- Unfolding one undo keystroke. -/
theorem undoN_succ (cfg : Config) (s : EditorState) (k : Nat) :
    undoN cfg s (k + 1) = undoN cfg (stepEvent cfg s Event.undoKey) k := by
  unfold undoN applyEvents
  rw [List.replicate_succ, List.foldl_cons]

/-- Undos leave the history untouched. -/
theorem undoN_history (cfg : Config) :
    ∀ (k : Nat) (s : EditorState), (undoN cfg s k).history = s.history := by
  intro k
  induction k with
  | zero => intro s; rfl
  | succ k ih =>
      intro s
      rw [undoN_succ, ih, undo_history]

/-- k undos move the cursor to cursor - k, clamped at 0. -/
theorem undoN_historyStep (cfg : Config) :
    ∀ (k : Nat) (s : EditorState), (undoN cfg s k).historyStep = s.historyStep - k := by
  intro k
  induction k with
  | zero => intro s; rfl
  | succ k ih =>
      intro s
      rw [undoN_succ, ih, undo_historyStep]
      omega

/-- Undos preserve settledness. -/
theorem undoN_settled (cfg : Config) :
    ∀ (k : Nat) (s : EditorState), settled s → settled (undoN cfg s k) := by
  intro k
  induction k with
  | zero => intro s h; exact h
  | succ k ih =>
      intro s h
      rw [undoN_succ]
      exact ih _ (undo_settled_of_settled cfg s h)

/-- C2 counterexample: the round-trip claim quantifies over every grid state,
but from a state whose grid holds uncommitted stamps (a pointer-down never
followed by pointer-up), a completed stroke followed by one undo restores the
last committed snapshot, not the grid present when the stroke began. On a 1×2
grid: down at (0,0) with no up paints the left cell; then a stroke at (0,1)
commits and an undo yields the all-transparent snapshot, not the
left-cell-painted grid the stroke started from. -/
theorem c2_roundtrip_counterexample :
    (stepEvent cexCfg
        (applyEvents cexCfg
          (applyEvents cexCfg (initState cexCfg) [Event.mouseDown 0 0])
          (strokeEvents 0 1 [])) Event.undoKey).pixels
      ≠ (applyEvents cexCfg (initState cexCfg) [Event.mouseDown 0 0]).pixels := by
  decide

/-- C2 amended: from any settled state (grid store equal to the history entry
at the cursor — true after initialization, any commit, and any cursor-moving
undo), committing a completed stroke and then undoing once restores the grid
store to exactly the cell values present when the stroke began. -/
theorem c2_stroke_undo_roundtrip (cfg : Config) (s : EditorState) (r0 c0 : ℤ)
    (moves : List (ℤ × ℤ)) (hs : settled s) :
    (stepEvent cfg (applyEvents cfg s (strokeEvents r0 c0 moves)) Event.undoKey).pixels
      = s.pixels := by
  have hst := stroke_history cfg s r0 c0 moves
  have hlt := settled_lt s hs
  have hne : (applyEvents cfg s (strokeEvents r0 c0 moves)).historyStep ≠ 0 := by
    rw [hst.2]
    omega
  have hidx : (applyEvents cfg s (strokeEvents r0 c0 moves)).history[
      (applyEvents cfg s (strokeEvents r0 c0 moves)).historyStep - 1]? = some s.pixels := by
    rw [hst.1, hst.2, Nat.add_sub_cancel]
    have hlen : (s.history.take (s.historyStep + 1)).length = s.historyStep + 1 := by
      rw [List.length_take]
      omega
    rw [List.getElem?_append_left (by rw [hlen]; omega),
      List.getElem?_take_of_lt (Nat.lt_succ_self _)]
    exact hs
  simp [stepEvent, hne, hidx, copyGrid_eq]

/-- C2 witness: one stroke from the freshly initialized 1×2 editor, undone. -/
theorem c2_stroke_undo_roundtrip_witness :
    (stepEvent cexCfg (applyEvents cexCfg (initState cexCfg) (strokeEvents 0 0 []))
        Event.undoKey).pixels
      = (initState cexCfg).pixels :=
  c2_stroke_undo_roundtrip cexCfg (initState cexCfg) 0 0 [] (by decide)

/-- C3: from any state with an in-range cursor c, k undos followed by one
completed stroke leave the history equal to the old entries [0, c-k] plus one
appended (deep-copied) snapshot of the grid at commit, with the cursor at the
new last index; any number m of further undos keeps that truncated history,
keeps the cursor at most c-k+1, and only ever restores entries of the
truncated history — so the old entries at indices beyond the cursor the commit
saw (in particular all entries beyond the pre-undo cursor c) are gone and
unreachable by any further sequence of undos. -/
theorem c3_commit_truncates (cfg : Config) (s : EditorState)
    (hc : s.historyStep < s.history.length) (k : Nat) (r0 c0 : ℤ)
    (moves : List (ℤ × ℤ)) :
    (afterStroke cfg s k r0 c0 moves).history
        = s.history.take (s.historyStep - k + 1)
          ++ [copyGrid (afterStroke cfg s k r0 c0 moves).pixels]
    ∧ (afterStroke cfg s k r0 c0 moves).history.length = (s.historyStep - k + 1) + 1
    ∧ (afterStroke cfg s k r0 c0 moves).historyStep = s.historyStep - k + 1
    ∧ ∀ m : Nat,
        (undoN cfg (afterStroke cfg s k r0 c0 moves) m).history
            = (afterStroke cfg s k r0 c0 moves).history
        ∧ (undoN cfg (afterStroke cfg s k r0 c0 moves) m).historyStep
            = s.historyStep - k + 1 - m
        ∧ settled (undoN cfg (afterStroke cfg s k r0 c0 moves) m) := by
  have ht_hist : (undoN cfg s k).history = s.history := undoN_history cfg k s
  have ht_step : (undoN cfg s k).historyStep = s.historyStep - k := undoN_historyStep cfg k s
  have hst := stroke_history cfg (undoN cfg s k) r0 c0 moves
  have h1 : (afterStroke cfg s k r0 c0 moves).history
      = s.history.take (s.historyStep - k + 1)
        ++ [copyGrid (afterStroke cfg s k r0 c0 moves).pixels] := by
    show (applyEvents cfg (undoN cfg s k) (strokeEvents r0 c0 moves)).history = _
    rw [hst.1, ht_hist, ht_step]
    rfl
  have h3 : (afterStroke cfg s k r0 c0 moves).historyStep = s.historyStep - k + 1 := by
    show (applyEvents cfg (undoN cfg s k) (strokeEvents r0 c0 moves)).historyStep = _
    rw [hst.2, ht_step]
  have h2 : (afterStroke cfg s k r0 c0 moves).history.length
      = (s.historyStep - k + 1) + 1 := by
    rw [h1, List.length_append, List.length_take]
    simp only [List.length_cons, List.length_nil]
    omega
  have hsettled : settled (afterStroke cfg s k r0 c0 moves) := by
    show settled (applyEvents cfg (undoN cfg s k) (strokeEvents r0 c0 moves))
    rw [applyEvents_stroke]
    apply mouseUp_settled
    have hmv := moves_pres cfg moves (stepEvent cfg (undoN cfg s k) (Event.mouseDown r0 c0))
    rw [hmv.1, hmv.2]
    have hdn := down_pres cfg (undoN cfg s k) r0 c0
    rw [hdn.1, hdn.2, ht_hist, ht_step]
    omega
  refine ⟨h1, h2, h3, ?_⟩
  intro m
  refine ⟨undoN_history cfg m _, ?_, undoN_settled cfg m _ hsettled⟩
  rw [undoN_historyStep cfg m _, h3]

/-- C3 witness: one undo then one stroke on the fresh 1×2 editor. -/
theorem c3_commit_truncates_witness :
    (afterStroke cexCfg (initState cexCfg) 1 0 0 []).historyStep = 1 :=
  (c3_commit_truncates cexCfg (initState cexCfg) (by decide) 1 0 0 []).2.2.1

/-- C4 counterexample: paint with pointer-down on the fresh 1×2 editor, never
release, then hit undo at cursor 0. The undo is a settle point, yet the grid
store (left cell painted) differs from history[0] (all transparent): the
"after any settle point" invariant is false as stated. -/
theorem c4_invariant_counterexample :
    ¬ settled (applyEvents cexCfg (initState cexCfg)
        [Event.mouseDown 0 0, Event.undoKey]) := by
  decide

/-- C4 amended: the cursor stays within [0, history length - 1] along every
event sequence from initialization, and the grid store equals the (value-level
deep-copied) history entry at the cursor at initialization, after every
pointer-up commit from a cursor-in-range state, after every undo from a
positive in-range cursor, and after every undo from an already settled state.
(An undo at cursor 0 over a grid carrying uncommitted stamps is exactly the
settle point where the equality fails, per the counterexample.) -/
theorem c4_settle_invariants (cfg : Config) :
    settled (initState cfg)
    ∧ (∀ evs : List Event,
        (applyEvents cfg (initState cfg) evs).historyStep
          < (applyEvents cfg (initState cfg) evs).history.length)
    ∧ (∀ s : EditorState, s.historyStep < s.history.length →
        settled (stepEvent cfg s Event.mouseUp))
    ∧ (∀ s : EditorState, 0 < s.historyStep → s.historyStep < s.history.length →
        settled (stepEvent cfg s Event.undoKey))
    ∧ (∀ s : EditorState, settled s → settled (stepEvent cfg s Event.undoKey)) := by
  refine ⟨settled_init cfg, ?_, mouseUp_settled cfg, undo_settled_of_pos cfg,
    undo_settled_of_settled cfg⟩
  intro evs
  apply applyEvents_inv
  simp [initState]

/-- C4 witness: the commit clause at the fresh 1×2 editor. -/
theorem c4_settle_invariants_witness :
    settled (stepEvent cexCfg (initState cexCfg) Event.mouseUp) :=
  (c4_settle_invariants cexCfg).2.2.1 (initState cexCfg) (by decide)

/-- C5: pointer-up commits unconditionally from every state — it truncates at
the cursor, appends a deep copy of the current grid as the new last entry and
advances the cursor — without consulting the drawing flag; in particular a
pointer-up with no preceding pointer-down (any state with `isDrawing = false`)
still records a snapshot of the unchanged grid as a new history entry. -/
theorem c5_unconditional_commit (cfg : Config) (s : EditorState) :
    (stepEvent cfg s Event.mouseUp).history
        = s.history.take (s.historyStep + 1) ++ [copyGrid s.pixels]
    ∧ (stepEvent cfg s Event.mouseUp).historyStep = s.historyStep + 1
    ∧ (stepEvent cfg s Event.mouseUp).history.getLast? = some (copyGrid s.pixels)
    ∧ (stepEvent cfg s Event.mouseUp).pixels = s.pixels
    ∧ (stepEvent cfg s Event.mouseUp).isDrawing = false := by
  refine ⟨rfl, rfl, ?_, rfl, rfl⟩
  show (s.history.take (s.historyStep + 1) ++ [copyGrid s.pixels]).getLast? = _
  rw [List.getLast?_concat]

/-- C8: the undo keystroke sets the cursor to max(0, cursor - 1) — over Nat,
cursor - 1 — keeps the history, and replaces the grid store with a copy of the
history entry at the new cursor when the cursor was positive; at cursor 0 it
is a complete no-op (no error, cursor and grid store unchanged). -/
theorem c8_undo_clamp (cfg : Config) (s : EditorState) :
    (s.historyStep = 0 → stepEvent cfg s Event.undoKey = s)
    ∧ (stepEvent cfg s Event.undoKey).historyStep = s.historyStep - 1
    ∧ (stepEvent cfg s Event.undoKey).history = s.history
    ∧ (∀ g : Grid, 0 < s.historyStep → s.history[s.historyStep - 1]? = some g →
        (stepEvent cfg s Event.undoKey).pixels = copyGrid g) := by
  refine ⟨?_, undo_historyStep cfg s, undo_history cfg s, ?_⟩
  · intro h
    simp [stepEvent, h]
  · intro g h0 hg
    have hne : s.historyStep ≠ 0 := by omega
    simp [stepEvent, hne, hg]

/-- C8 witness: undo on the fresh editor, cursor already 0. -/
theorem c8_undo_clamp_witness :
    stepEvent cexCfg (initState cexCfg) Event.undoKey = initState cexCfg :=
  (c8_undo_clamp cexCfg (initState cexCfg)).1 rfl

/-- C9: the ghost-preview pass is pure — it returns the state untouched (the
layout effect of lines 92-94 calls no state setter, so grid store and history
are unmodified) — and its overlay is empty whenever the hover position is
absent, grab mode is active, or a stroke is in progress. -/
theorem c9_ghost_pure (cfg : Config) (s : EditorState) :
    (renderGhost cfg s).1 = s
    ∧ ((s.hoverPos = none ∨ cfg.isGrab = true ∨ s.isDrawing = true) →
        (renderGhost cfg s).2 = []) := by
  refine ⟨rfl, ?_⟩
  intro h
  show drawGhostBrush cfg s = []
  unfold drawGhostBrush
  rcases h with h | h | h
  · rw [h]
  · cases hp : s.hoverPos with
    | none => rfl
    | some p =>
        obtain ⟨pr, pc⟩ := p
        simp [h]
  · cases hp : s.hoverPos with
    | none => rfl
    | some p =>
        obtain ⟨pr, pc⟩ := p
        simp [h]

/-- C9 witness: the fresh editor hovers nowhere, so the overlay is empty. -/
theorem c9_ghost_pure_witness :
    (renderGhost cexCfg (initState cexCfg)).2 = [] :=
  (c9_ghost_pure cexCfg (initState cexCfg)).2 (Or.inl rfl)

/-- C7: with positive zoom and cell pixel size, shifting the pointer by
exactly zoom * cellPixelSize along x moves the mapped column up by exactly 1
and leaves the row unchanged. -/
theorem c7_col_step (zoom pixelSize clientX clientY rectLeft rectTop : ℚ)
    (hz : 0 < zoom) (hp : 0 < pixelSize) :
    getCell zoom pixelSize (clientX + zoom * pixelSize) clientY rectLeft rectTop
      = ((getCell zoom pixelSize clientX clientY rectLeft rectTop).1,
         (getCell zoom pixelSize clientX clientY rectLeft rectTop).2 + 1) := by
  have hz' : zoom ≠ 0 := ne_of_gt hz
  have hp' : pixelSize ≠ 0 := ne_of_gt hp
  have key : (clientX + zoom * pixelSize - rectLeft) / zoom / pixelSize
      = (clientX - rectLeft) / zoom / pixelSize + 1 := by
    field_simp
    ring
  show (Int.floor ((clientY - rectTop) / zoom / pixelSize),
      Int.floor ((clientX + zoom * pixelSize - rectLeft) / zoom / pixelSize))
    = (Int.floor ((clientY - rectTop) / zoom / pixelSize),
      Int.floor ((clientX - rectLeft) / zoom / pixelSize) + 1)
  rw [key, Int.floor_add_one]

/-- C7 witness: zoom 2, cell pixel size 3, pointer shifted by 6. -/
theorem c7_col_step_witness :
    getCell 2 3 (7 + 2 * 3) 0 1 0
      = ((getCell 2 3 7 0 1 0).1, (getCell 2 3 7 0 1 0).2 + 1) :=
  c7_col_step 2 3 7 0 1 0 (by norm_num) (by norm_num)
